import Mathlib

/- Shallow embedding of the markdown editor component of the Rin repository
   (src/client/src/components/markdown_editor.tsx, together with the older
   variant of the same component in src/unnamed/part_000).  Document text,
   selected text and replacement text are modelled as lists of characters.
   The JavaScript string primitives used by the component (startsWith,
   endsWith, slice with a negative end index, split/join on a newline, the
   regular expressions of the clear-format and heading actions) are modelled
   by the executable list functions below. -/

/-- Boolean prefix test on character lists, the primitive under the models of
`String.prototype.startsWith` and `String.prototype.endsWith`. -/
def isPrefixCh : List Char → List Char → Bool
  | [], _ => true
  | _ :: _, [] => false
  | a :: as, b :: bs => a == b && isPrefixCh as bs

/-- Models JavaScript `s.startsWith(p)`. -/
def jsStartsWith (p s : List Char) : Bool := isPrefixCh p s

/-- Models JavaScript `s.endsWith(p)`: `p` is a suffix of `s`. -/
def jsEndsWith (p s : List Char) : Bool := isPrefixCh p.reverse s.reverse

/-- Models JavaScript `s.slice(start, -fromEnd)` for a non-negative `start`
and a negative end index `-fromEnd`: the characters from index `start`
(inclusive) up to index `s.length - fromEnd` (exclusive); empty when the
clamped bounds cross. -/
def jsSlice (s : List Char) (start fromEnd : Nat) : List Char :=
  (s.drop start).take (s.length - fromEnd - start)

/-- The backquote character, written by its code point. -/
def backquoteChar : Char := Char.ofNat 96

/-- The `case 'bold'` branch of `handleMarkdownAction`
(markdown_editor.tsx lines 39-52; identically the `markdown-bold` action of
src/unnamed/part_000 lines 186-199): when the selection starts and ends with
`**` strip two characters from each end with `slice(2, -2)`, otherwise wrap
the selection in `**`. -/
def boldAction (selectedText : List Char) : List Char :=
  if jsStartsWith ['*', '*'] selectedText && jsEndsWith ['*', '*'] selectedText then
    jsSlice selectedText 2 2
  else ['*', '*'] ++ selectedText ++ ['*', '*']

/-- The `case 'italic'` branch of `handleMarkdownAction`
(markdown_editor.tsx lines 54-67; identically the `markdown-italic` action of
src/unnamed/part_000 lines 212-231): when the selection starts and ends with
`*` and has length greater than 1, strip one character from each end with
`slice(1, -1)`, otherwise wrap the selection in `*`. -/
def italicAction (selectedText : List Char) : List Char :=
  if jsStartsWith ['*'] selectedText && jsEndsWith ['*'] selectedText
      && decide (1 < selectedText.length) then
    jsSlice selectedText 1 1
  else '*' :: selectedText ++ ['*']

/-- The `case 'inline-code'` branch of `handleMarkdownAction`
(markdown_editor.tsx lines 103-116): same toggle shape as the italic action
but with a backquote marker. -/
def inlineCodeAction (selectedText : List Char) : List Char :=
  if jsStartsWith [backquoteChar] selectedText && jsEndsWith [backquoteChar] selectedText
      && decide (1 < selectedText.length) then
    jsSlice selectedText 1 1
  else backquoteChar :: selectedText ++ [backquoteChar]

/-- The `case 'strikethrough'` branch of `handleMarkdownAction`
(markdown_editor.tsx lines 216-229): same toggle shape as the bold action but
with a `~~` marker. -/
def strikethroughAction (selectedText : List Char) : List Char :=
  if jsStartsWith ['~', '~'] selectedText && jsEndsWith ['~', '~'] selectedText then
    jsSlice selectedText 2 2
  else ['~', '~'] ++ selectedText ++ ['~', '~']

/-- Whitespace test modelling the JavaScript regex class `\s`, restricted to
its ASCII members (the only characters relevant to the embedded strings). -/
def isSpaceCh (c : Char) : Bool :=
  c == ' ' || c == '\t' || c == '\n' || c == '\r' || c == '\x0b' || c == '\x0c'

/-- One backtracking attempt of the anchored regex `^(#{1,6})\s` of
`handleHeadingAction`: does the line start with `j` repetitions of `#`
followed by one whitespace character? -/
def headingTry (line : List Char) (j : Nat) : Bool :=
  isPrefixCh (List.replicate j '#') line &&
    match line.drop j with
    | c :: _ => isSpaceCh c
    | [] => false

/-- Result of matching the regex `^(#{1,6})\s` against a line: the length of
the captured run of `#`.  The greedy quantifier tries six characters first
and backtracks down to one, exactly as the JavaScript engine does. -/
def headingMatchLen (line : List Char) : Option Nat :=
  if headingTry line 6 then some 6
  else if headingTry line 5 then some 5
  else if headingTry line 4 then some 4
  else if headingTry line 3 then some 3
  else if headingTry line 2 then some 2
  else if headingTry line 1 then some 1
  else none

/-- The replacement text computed by `handleHeadingAction`
(markdown_editor.tsx lines 326-364; identically `addHeadingAction` in
src/unnamed/part_000 lines 465-523).  When the regex `^(#{1,6})\s` matches
the start line: remove the matched marker if the captured run has exactly the
requested level, otherwise replace it by the requested number of `#` and a
space; when it does not match: prepend the heading marker to the selection,
or produce a bare marker for an empty selection. -/
def headingNewText (level : Nat) (line selectedText : List Char) : List Char :=
  let hashes := List.replicate level '#'
  match headingMatchLen line with
  | some k =>
    if k == level then line.drop (k + 1)
    else hashes ++ ' ' :: line.drop (k + 1)
  | none =>
    if selectedText ≠ [] then hashes ++ ' ' :: selectedText
    else hashes ++ [' ']

/-- Models JavaScript `s.split('\n')`: one part per newline-separated
segment; the empty string yields a single empty part. -/
def splitNl : List Char → List (List Char)
  | [] => [[]]
  | c :: cs =>
    if c == '\n' then [] :: splitNl cs
    else
      match splitNl cs with
      | [] => [[c]]
      | l :: ls => (c :: l) :: ls

/-- Models JavaScript `parts.join('\n')`. -/
def joinNl : List (List Char) → List Char
  | [] => []
  | [l] => l
  | l :: ls => l ++ '\n' :: joinNl ls

/-- Decimal digit characters. -/
def decDigit : Nat → Char
  | 0 => '0'
  | 1 => '1'
  | 2 => '2'
  | 3 => '3'
  | 4 => '4'
  | 5 => '5'
  | 6 => '6'
  | 7 => '7'
  | 8 => '8'
  | _ => '9'

/-- Fuelled helper for decimal rendering; the fuel only bounds recursion
depth and `n + 1` is always enough. -/
def natToDecAux : Nat → Nat → List Char
  | 0, _ => []
  | fuel + 1, n =>
    if n < 10 then [decDigit n]
    else natToDecAux fuel (n / 10) ++ [decDigit (n % 10)]

/-- Decimal rendering of a natural number, as produced by the JavaScript
template literal conversion of `index + 1` in the ordered-list action. -/
def natToDec (n : Nat) : List Char := natToDecAux (n + 1) n

/-- The `case 'blockquote'` replacement text (markdown_editor.tsx lines
143-156): prefix every line of a non-empty selection with `> `, or produce a
bare `> ` for an empty selection. -/
def blockquoteText (selectedText : List Char) : List Char :=
  if selectedText ≠ [] then
    joinNl ((splitNl selectedText).map (fun line => '>' :: ' ' :: line))
  else ['>', ' ']

/-- The `case 'unordered-list'` replacement text (markdown_editor.tsx lines
158-171): prefix every line of a non-empty selection with `- `. -/
def unorderedListText (selectedText : List Char) : List Char :=
  if selectedText ≠ [] then
    joinNl ((splitNl selectedText).map (fun line => '-' :: ' ' :: line))
  else ['-', ' ']

/-- The `case 'ordered-list'` replacement text (markdown_editor.tsx lines
173-186): prefix line number `index` (counting from 0) of a non-empty
selection with the decimal rendering of `index + 1` followed by `. `. -/
def orderedListText (selectedText : List Char) : List Char :=
  if selectedText ≠ [] then
    joinNl ((splitNl selectedText).enum.map
      (fun p => natToDec (p.1 + 1) ++ '.' :: ' ' :: p.2))
  else ['1', '.', ' ']

/-- The `case 'task-list'` replacement text (markdown_editor.tsx lines
239-252): prefix every line of a non-empty selection with `- [ ] `. -/
def taskListText (selectedText : List Char) : List Char :=
  if selectedText ≠ [] then
    joinNl ((splitNl selectedText).map
      (fun line => '-' :: ' ' :: '[' :: ' ' :: ']' :: ' ' :: line))
  else ['-', ' ', '[', ' ', ']', ' ']

/-- Per-line indent text of the `case 'increase-indent'` branch with a
non-empty selection (markdown_editor.tsx lines 273-281). -/
def indentText (selectedText : List Char) : List Char :=
  joinNl ((splitNl selectedText).map (fun line => ("    ").data ++ line))

/-- Length of the leading run of plain spaces of a line. -/
def spaceRunLen : List Char → Nat
  | c :: cs => if c == ' ' then spaceRunLen cs + 1 else 0
  | [] => 0

/-- Models `line.replace` of the regex that anchors at the line start and
consumes one to four spaces, with the empty replacement (the
`case 'decrease-indent'` branch, markdown_editor.tsx lines 297-321): drop up
to four leading spaces. -/
def dedentLine (line : List Char) : List Char :=
  line.drop (min (spaceRunLen line) 4)

/-- Per-line dedent text of the `case 'decrease-indent'` branch with a
non-empty selection. -/
def dedentText (selectedText : List Char) : List Char :=
  joinNl ((splitNl selectedText).map dedentLine)

/-- Lazy search for the closing delimiter of a wrap pattern such as
`\*\*(.*?)\*\*`: starting right after the opening delimiter, return the
shortest newline-free content followed by the delimiter, together with the
text after the closing delimiter; `none` when a newline or the end of the
text intervenes. -/
def findClose (delim : List Char) : List Char → Option (List Char × List Char)
  | [] => none
  | c :: cs =>
    if isPrefixCh delim (c :: cs) then some ([], (c :: cs).drop delim.length)
    else if c == '\n' then none
    else (findClose delim cs).map (fun p => (c :: p.1, p.2))

/-- Global replacement of a wrap pattern `D(.*?)D` by its capture `$1`, for a
two-sided delimiter `D`, scanning left to right as the JavaScript engine
does.  The fuel only bounds recursion depth; the length of the text is always
enough because every step consumes at least one character. -/
def replaceWrap (delim : List Char) : Nat → List Char → List Char
  | 0, s => s
  | _, [] => []
  | fuel + 1, c :: cs =>
    if isPrefixCh delim (c :: cs) then
      match findClose delim ((c :: cs).drop delim.length) with
      | some (content, rest) => content ++ replaceWrap delim fuel rest
      | none => c :: replaceWrap delim fuel cs
    else c :: replaceWrap delim fuel cs

/-- Lazy search, with backtracking, for the tail of the link pattern
`\[(.*?)\]\(.*?\)` after its opening bracket: the shortest newline-free
capture followed by `](`, a newline-free URL part and `)`; when the URL part
fails to close, the capture extends over the bracket, as the JavaScript
engine backtracks. -/
def findLink : List Char → Option (List Char × List Char)
  | [] => none
  | ']' :: '(' :: rest =>
    match findClose [')'] rest with
    | some (_, after) => some ([], after)
    | none => (findLink ('(' :: rest)).map (fun p => (']' :: p.1, p.2))
  | c :: cs =>
    if c == '\n' then none
    else (findLink cs).map (fun p => (c :: p.1, p.2))

/-- Global replacement of the link pattern `\[(.*?)\]\(.*?\)` by its capture
`$1`. -/
def replaceLinks : Nat → List Char → List Char
  | 0, s => s
  | _, [] => []
  | fuel + 1, c :: cs =>
    if c == '[' then
      match findLink cs with
      | some (content, after) => content ++ replaceLinks fuel after
      | none => c :: replaceLinks fuel cs
    else c :: replaceLinks fuel cs

/-- Length of the leading run of `#`. -/
def hashRunLen : List Char → Nat
  | c :: cs => if c == '#' then hashRunLen cs + 1 else 0
  | [] => 0

/-- Length of the leading run of `\s` whitespace. -/
def wsRunLen : List Char → Nat
  | c :: cs => if isSpaceCh c then wsRunLen cs + 1 else 0
  | [] => 0

/-- Length of the leading run of decimal digits, the class `\d`. -/
def digitRunLen : List Char → Nat
  | c :: cs => if c.isDigit then digitRunLen cs + 1 else 0
  | [] => 0

/-- Match length at a line start of the multiline-anchored pattern that
removes heading markers in the clear-format action: one or more `#` followed
by greedy whitespace. -/
def headingAnchorLen (s : List Char) : Option Nat :=
  let h := hashRunLen s
  if h = 0 then none else some (h + wsRunLen (s.drop h))

/-- Match length at a line start of the pattern removing blockquote markers:
a `>` followed by greedy whitespace. -/
def quoteAnchorLen : List Char → Option Nat
  | '>' :: rest => some (1 + wsRunLen rest)
  | _ => none

/-- Match length at a line start of the pattern removing unordered-list
markers: one of `*` or `-` followed by greedy whitespace. -/
def bulletAnchorLen : List Char → Option Nat
  | '*' :: rest => some (1 + wsRunLen rest)
  | '-' :: rest => some (1 + wsRunLen rest)
  | _ => none

/-- Match length at a line start of the pattern removing ordered-list
markers: one or more digits, a literal dot, then greedy whitespace. -/
def orderedAnchorLen (s : List Char) : Option Nat :=
  let d := digitRunLen s
  if d = 0 then none
  else
    match s.drop d with
    | '.' :: rest => some (d + 1 + wsRunLen rest)
    | _ => none

/-- Global replacement by the empty string of a multiline-anchored pattern,
given its match-length function: the pattern is tried at the start of the
text and after every newline, and scanning resumes right after each match,
as the JavaScript engine does with the `gm` flags.  The fuel only bounds
recursion depth; the length of the text is always enough. -/
def stripAnchored (m : List Char → Option Nat) : Nat → Bool → List Char → List Char
  | 0, _, s => s
  | _, _, [] => []
  | fuel + 1, atStart, c :: cs =>
    if atStart then
      match m (c :: cs) with
      | some k =>
        stripAnchored m fuel (((c :: cs).take k).getLast? == some '\n') ((c :: cs).drop k)
      | none => c :: stripAnchored m fuel (c == '\n') cs
    else c :: stripAnchored m fuel (c == '\n') cs

/-- The `case 'clear-format'` chain of regex replacements
(markdown_editor.tsx lines 254-271), in source order: the wrap patterns for
bold, italic, strikethrough and inline code, the link pattern, then the
multiline-anchored heading, blockquote, unordered-list and ordered-list
markers. -/
def clearFormat (selectedText : List Char) : List Char :=
  let s1 := replaceWrap ['*', '*'] selectedText.length selectedText
  let s2 := replaceWrap ['*'] s1.length s1
  let s3 := replaceWrap ['~', '~'] s2.length s2
  let s4 := replaceWrap [backquoteChar] s3.length s3
  let s5 := replaceLinks s4.length s4
  let s6 := stripAnchored headingAnchorLen s5.length true s5
  let s7 := stripAnchored quoteAnchorLen s6.length true s6
  let s8 := stripAnchored bulletAnchorLen s7.length true s7
  stripAnchored orderedAnchorLen s8.length true s8

/-- A file as seen by the upload handlers: its name and its size in bytes. -/
structure UFile where
  name : String
  size : Nat
deriving DecidableEq

/-- Observable effects of the upload button change handler `upChange`. -/
inductive UpEffect where
  | alertMsg (msg : String)
  | clearInput
  | startUpload (f : UFile)
deriving DecidableEq

/-- The loop of `upChange` (markdown_editor.tsx lines 414-435; identically
src/unnamed/part_000 lines 74-95): a file larger than `5 * 1024000` bytes
raises the alert and clears the file input, a smaller file starts an upload
when the editor and a selection are present, and a missing editor or
selection returns from the handler, abandoning the remaining files. -/
def upChange (editorPresent selPresent : Bool) : List UFile → List UpEffect
  | [] => []
  | f :: fs =>
    if f.size > 5 * 1024000 then
      UpEffect.alertMsg "File too large (max 5MB)" :: UpEffect.clearInput ::
        upChange editorPresent selPresent fs
    else if editorPresent && selPresent then
      UpEffect.startUpload f :: upChange editorPresent selPresent fs
    else []

/-- The destructured response of the storage endpoint call: an optional URL
and an optional error indicator. -/
structure UploadResponse where
  data : Option String
  error : Option String

/-- How one upload settles: the request resolves with a response, or rejects
(network failure). -/
inductive UploadOutcome where
  | resolved (r : UploadResponse)
  | rejected

/-- The continuation logic of `uploadImage` (markdown_editor.tsx lines
366-389; identically src/unnamed/part_000 lines 26-49): the alert messages
shown and the URL passed to `onSuccess`, if any.  An error or a rejection
surfaces the translated `upload.failed` message; `onSuccess` runs only when
the response carries data. -/
def uploadImageRun : UploadOutcome → List String × Option String
  | .resolved r => ((if r.error.isSome then ["upload.failed"] else []), r.data)
  | .rejected => (["upload.failed"], none)

/-- Replace the document slice `[start, start + len)` by the given text; the
edit applied by the success callbacks of the paste, drop and file-select
upload paths. -/
def spliceAt (doc : List Char) (start len : Nat) (text : List Char) : List Char :=
  doc.take start ++ text ++ doc.drop (start + len)

/-- The image reference spliced in on success, the template written by all
three upload call sites. -/
def imageMarkdown (name url : List Char) : List Char :=
  '!' :: '[' :: (name ++ ']' :: '(' :: url) ++ [')', '\n']

/-- The document text after one upload interaction (paste, drop or
file-select): the success callback splices the image reference at the
recorded selection; the failure branches of `uploadImage` only alert or log
and leave the document untouched. -/
def uploadInteraction (doc : List Char) (start len : Nat) (name : List Char)
    (o : UploadOutcome) : List Char :=
  match (uploadImageRun o).2 with
  | some url => spliceAt doc start len (imageMarkdown name url.data)
  | none => doc

/-- The upload request failed: the promise rejected (network failure), or
the server answered with an error indicator and no data. -/
def uploadFailed : UploadOutcome → Prop
  | .resolved r => r.error.isSome = true ∧ r.data = none
  | .rejected => True

/-- State of the editor bridge installed by `handleEditorMount`: the IME
composition flag held in `isComposingRef` and the parent content last pushed
through `setContent`. -/
structure BridgeState where
  composing : Bool
  parentContent : List Char

/-- Events observed by the listeners of `handleEditorMount`; the payload is
the full editor text `editorInstance.getValue()` at the time of the event. -/
inductive BridgeEvent where
  | compositionStart
  | compositionEnd (editorValue : List Char)
  | contentChange (editorValue : List Char)
  | blur (editorValue : List Char)

/-- The four listeners installed by `handleEditorMount` (markdown_editor.tsx
lines 543-563; identically src/unnamed/part_000 lines 149-169): composition
start raises the flag; composition end clears it and commits the editor
text; a model content change commits only outside composition; losing focus
always commits. -/
def bridgeStep (st : BridgeState) (e : BridgeEvent) : BridgeState :=
  match e with
  | .compositionStart => { st with composing := true }
  | .compositionEnd v => { composing := false, parentContent := v }
  | .contentChange v =>
    if st.composing then st else { st with parentContent := v }
  | .blur v => { st with parentContent := v }

/-- A monaco selection or range: start and end line and column numbers. -/
structure Sel where
  startLineNumber : Nat
  startColumn : Nat
  endLineNumber : Nat
  endColumn : Nat

/-- The read-only interface of the external monaco text model used by the
dispatcher.  The model belongs to the external editor library, so it is
embedded as an abstract record of the three query functions the component
calls. -/
structure TextModel where
  valueInRange : Sel → List Char
  lineContent : Nat → List Char
  lineLength : Nat → Nat

/-- Observable effects of one formatting action: a text edit (with its
source label, target range and replacement text), a selection change, a
cursor placement, or a focus call. -/
inductive Effect where
  | edit (source : String) (range : Sel) (text : List Char)
  | setSelection (range : Sel)
  | setPosition (lineNumber column : Nat)
  | focus

/-- Lookup through the i18n translation table with the JavaScript `||`
fallback used for a missing or empty translation. -/
def tOr (tr : String → List Char) (key : String) (fallback : List Char) : List Char :=
  if tr key = [] then fallback else tr key

/-- The `case 'link'` branch (markdown_editor.tsx lines 69-101): wrap the
selection (or the translated placeholder) in a link template, then select
the URL part (or the placeholder) and focus. -/
def linkEffects (tr : String → List Char) (selection : Sel)
    (selectedText : List Char) : List Effect :=
  if selectedText ≠ [] then
    [Effect.edit "link" selection (("[").data ++ selectedText ++ ("](url)").data),
     Effect.setSelection
       ⟨selection.startLineNumber, selection.startColumn + selectedText.length + 3,
        selection.endLineNumber, selection.startColumn + selectedText.length + 6⟩,
     Effect.focus]
  else
    let placeholderText := tOr tr "link.placeholder" ("链接文本").data
    [Effect.edit "link" selection (("[").data ++ placeholderText ++ ("](url)").data),
     Effect.setSelection
       ⟨selection.startLineNumber, selection.startColumn + 1,
        selection.startLineNumber, selection.startColumn + 1 + placeholderText.length⟩,
     Effect.focus]

/-- The `case 'code-block'` branch (markdown_editor.tsx lines 118-141). -/
def codeBlockEffects (tr : String → List Char) (selection : Sel)
    (selectedText : List Char) : List Effect :=
  if selectedText ≠ [] then
    [Effect.edit "code-block" selection
      (("```\n").data ++ selectedText ++ ("\n```").data)]
  else
    [Effect.edit "code-block" selection
      (("```\n").data ++ tOr tr "code.language" ("language").data ++ ("\n```").data),
     Effect.setSelection
       ⟨selection.startLineNumber + 1, 1, selection.startLineNumber + 1, 9⟩,
     Effect.focus]

/-- The edits issued by `handleHeadingAction` (markdown_editor.tsx lines
326-364): the computed replacement goes to the whole start line when the
selection is empty, and to the selection range otherwise. -/
def headingEffects (level : Nat) (selection : Sel) (model : TextModel)
    (selectedText : List Char) : List Effect :=
  let line := model.lineContent selection.startLineNumber
  let newText := headingNewText level line selectedText
  if selectedText = [] then
    [Effect.edit ("heading-" ++ String.mk (natToDec level))
      ⟨selection.startLineNumber, 1, selection.startLineNumber,
       model.lineLength selection.startLineNumber + 1⟩ newText]
  else
    [Effect.edit ("heading-" ++ String.mk (natToDec level)) selection newText]

/-- The `case 'table'` template (markdown_editor.tsx lines 231-237). -/
def tableText (tr : String → List Char) : List Char :=
  let h := tOr tr "table.header" ("标题").data
  let c := tOr tr "table.content" ("内容").data
  ("| ").data ++ h ++ (" 1 | ").data ++ h ++ (" 2 | ").data ++ h ++
    (" 3 |\n| --- | --- | --- |\n| ").data ++ c ++ (" 1 | ").data ++ c ++
    (" 2 | ").data ++ c ++ (" 3 |\n").data

/-- The `case 'increase-indent'` branch (markdown_editor.tsx lines 273-295):
indent each selected line, or the whole current line when the selection is
empty. -/
def increaseIndentEffects (selection : Sel) (model : TextModel)
    (selectedText : List Char) : List Effect :=
  if selectedText ≠ [] then
    [Effect.edit "increase-indent" selection (indentText selectedText)]
  else
    let lineNumber := selection.startLineNumber
    [Effect.edit "increase-indent"
      ⟨lineNumber, 1, lineNumber, model.lineLength lineNumber + 1⟩
      (("    ").data ++ model.lineContent lineNumber)]

/-- The `case 'decrease-indent'` branch (markdown_editor.tsx lines 297-321). -/
def decreaseIndentEffects (selection : Sel) (model : TextModel)
    (selectedText : List Char) : List Effect :=
  if selectedText ≠ [] then
    [Effect.edit "decrease-indent" selection (dedentText selectedText)]
  else
    let lineNumber := selection.startLineNumber
    [Effect.edit "decrease-indent"
      ⟨lineNumber, 1, lineNumber, model.lineLength lineNumber + 1⟩
      (dedentLine (model.lineContent lineNumber))]

/-- The switch of `handleMarkdownAction` (markdown_editor.tsx lines 38-322),
reached once the editor, the selection and the model are all present.  The
default of the switch performs nothing. -/
def dispatchAction (tr : String → List Char) (selection : Sel)
    (model : TextModel) (actionType : String) : List Effect :=
  let selectedText := model.valueInRange selection
  match actionType with
  | "bold" => [Effect.edit "bold" selection (boldAction selectedText)]
  | "italic" => [Effect.edit "italic" selection (italicAction selectedText)]
  | "link" => linkEffects tr selection selectedText
  | "inline-code" =>
    [Effect.edit "inline-code" selection (inlineCodeAction selectedText)]
  | "code-block" => codeBlockEffects tr selection selectedText
  | "blockquote" =>
    [Effect.edit "blockquote" selection (blockquoteText selectedText)]
  | "unordered-list" =>
    [Effect.edit "unordered-list" selection (unorderedListText selectedText)]
  | "ordered-list" =>
    [Effect.edit "ordered-list" selection (orderedListText selectedText)]
  | "heading-1" => headingEffects 1 selection model selectedText
  | "heading-2" => headingEffects 2 selection model selectedText
  | "heading-3" => headingEffects 3 selection model selectedText
  | "heading-4" => headingEffects 4 selection model selectedText
  | "horizontal-rule" =>
    [Effect.edit "horizontal-rule" selection ("\n---\n").data,
     Effect.setPosition (selection.startLineNumber + 2) 1, Effect.focus]
  | "strikethrough" =>
    [Effect.edit "strikethrough" selection (strikethroughAction selectedText)]
  | "table" => [Effect.edit "table" selection (tableText tr)]
  | "task-list" =>
    [Effect.edit "task-list" selection (taskListText selectedText)]
  | "clear-format" =>
    [Effect.edit "clear-format" selection (clearFormat selectedText)]
  | "increase-indent" => increaseIndentEffects selection model selectedText
  | "decrease-indent" => decreaseIndentEffects selection model selectedText
  | _ => []

/-- The guards and dispatch of `handleMarkdownAction` (markdown_editor.tsx
lines 27-36): a missing editor, a missing selection or a missing model
returns before any effect; otherwise the switch runs on the selected text. -/
def handleMarkdownAction (tr : String → List Char) (editorPresent : Bool)
    (selOpt : Option Sel) (modelOpt : Option TextModel)
    (actionType : String) : List Effect :=
  if !editorPresent then []
  else
    match selOpt with
    | none => []
    | some selection =>
      match modelOpt with
      | none => []
      | some model => dispatchAction tr selection model actionType

/- Helper lemmas shared by the claim theorems below. -/

/-- Stripping a freshly bold-wrapped selection recovers the selection. -/
theorem boldAction_wrap_strip (y : List Char) :
    boldAction (['*', '*'] ++ y ++ ['*', '*']) = y := by
  have hcond : (jsStartsWith ['*', '*'] (['*', '*'] ++ y ++ ['*', '*']) &&
      jsEndsWith ['*', '*'] (['*', '*'] ++ y ++ ['*', '*'])) = true := by
    simp [jsStartsWith, jsEndsWith, isPrefixCh]
  unfold boldAction
  rw [if_pos hcond]
  show (((['*', '*'] ++ y ++ ['*', '*']).drop 2).take
    ((['*', '*'] ++ y ++ ['*', '*']).length - 2 - 2)) = y
  have hlen : (['*', '*'] ++ y ++ ['*', '*']).length - 2 - 2 = y.length := by
    simp only [List.length_append, List.length_cons, List.length_nil]
    omega
  rw [hlen]
  show ((y ++ ['*', '*']).take y.length) = y
  exact List.take_left ..

/-- Dropping a heading marker of `k` hashes and its whitespace character. -/
theorem drop_hash_marker (k : Nat) (rest : List Char) :
    (List.replicate k '#' ++ ' ' :: rest).drop (k + 1) = rest := by
  have hlen : (List.replicate k '#').length = k := List.length_replicate ..
  calc (List.replicate k '#' ++ ' ' :: rest).drop (k + 1)
      = (List.replicate k '#' ++ ' ' :: rest).drop
          ((List.replicate k '#').length + 1) := by rw [hlen]
    _ = (' ' :: rest).drop 1 := List.drop_append ..
    _ = rest := rfl

/-- The heading regex captures exactly the hash run on a line made of `k`
hashes, a space, and a remainder, for any level-sized `k`. -/
theorem headingMatchLen_hashes (k : Nat) (rest : List Char)
    (h1 : 1 ≤ k) (h6 : k ≤ 6) :
    headingMatchLen (List.replicate k '#' ++ ' ' :: rest) = some k := by
  interval_cases k <;>
    simp [headingMatchLen, headingTry, isPrefixCh, isSpaceCh, List.replicate]

/- Claim theorems. -/

/-- C3: on a start line made of a run of exactly `N` hashes followed by a
space, the heading-level-`N` replacement removes the marker and keeps the
rest of the line; when the run has a different length `k` between 1 and 6,
the replacement swaps the marker for `N` hashes and keeps the rest of the
line; both hold for every selected text, empty or not. -/
theorem heading_level_toggle (N k : Nat) (rest selectedText : List Char)
    (hN1 : 1 ≤ N) (hN6 : N ≤ 6) (hk1 : 1 ≤ k) (hk6 : k ≤ 6) (hkN : k ≠ N) :
    headingNewText N (List.replicate N '#' ++ ' ' :: rest) selectedText = rest ∧
    headingNewText N (List.replicate k '#' ++ ' ' :: rest) selectedText
      = List.replicate N '#' ++ ' ' :: rest := by
  constructor
  · have hm := headingMatchLen_hashes N rest hN1 hN6
    simp [headingNewText, hm, drop_hash_marker]
  · have hm := headingMatchLen_hashes k rest hk1 hk6
    have hne : (k == N) = false := by simp [hkN]
    simp [headingNewText, hm, hne, drop_hash_marker]

/-- Witness for C3 at level 2 on the lines `## x` and `### x`. -/
theorem heading_level_toggle_witness :
    headingNewText 2 (List.replicate 2 '#' ++ ' ' :: ['x']) [] = ['x'] ∧
    headingNewText 2 (List.replicate 3 '#' ++ ' ' :: ['x']) []
      = List.replicate 2 '#' ++ ' ' :: ['x'] :=
  heading_level_toggle 2 3 ['x'] [] (by decide) (by decide) (by decide)
    (by decide) (by decide)

/-- C5: a selection that does not already both start and end with `**` is
wrapped by the bold action; the wrapped string is stripped back by a second
application; hence toggling bold twice there is the identity. -/
theorem bold_toggle_round_trip (x : List Char)
    (h : ¬ (jsStartsWith ['*', '*'] x = true ∧ jsEndsWith ['*', '*'] x = true)) :
    boldAction x = ['*', '*'] ++ x ++ ['*', '*'] ∧
    boldAction (['*', '*'] ++ x ++ ['*', '*']) = x ∧
    boldAction (boldAction x) = x := by
  have h1 : boldAction x = ['*', '*'] ++ x ++ ['*', '*'] := by
    have hcond : (jsStartsWith ['*', '*'] x && jsEndsWith ['*', '*'] x) = false := by
      cases hs : jsStartsWith ['*', '*'] x <;>
        cases he : jsEndsWith ['*', '*'] x <;> simp_all
    unfold boldAction
    rw [if_neg (by simp [hcond])]
  refine ⟨h1, boldAction_wrap_strip x, ?_⟩
  rw [h1]
  exact boldAction_wrap_strip x

/-- Witness for C5 at the concrete selection `a`. -/
theorem bold_toggle_round_trip_witness :
    boldAction ['a'] = ['*', '*'] ++ ['a'] ++ ['*', '*'] ∧
    boldAction (['*', '*'] ++ ['a'] ++ ['*', '*']) = ['a'] ∧
    boldAction (boldAction ['a']) = ['a'] :=
  bold_toggle_round_trip ['a'] (by decide)

/-- C9: the strip branch of the italic action fires whenever the selection
starts and ends with a single `*` and is longer than one character, so on a
bold-wrapped selection it removes one asterisk from each end, producing a
single-starred string instead of wrapping further. -/
theorem italic_strip_branch (s x : List Char)
    (h1 : jsStartsWith ['*'] s = true) (h2 : jsEndsWith ['*'] s = true)
    (h3 : 1 < s.length) :
    italicAction s = jsSlice s 1 1 ∧
    italicAction (['*', '*'] ++ x ++ ['*', '*']) = '*' :: x ++ ['*'] := by
  constructor
  · unfold italicAction
    rw [if_pos (by rw [h1, h2]; simp [h3])]
  · have hs : jsStartsWith ['*'] (['*', '*'] ++ x ++ ['*', '*']) = true := by
      simp [jsStartsWith, isPrefixCh]
    have he : jsEndsWith ['*'] (['*', '*'] ++ x ++ ['*', '*']) = true := by
      simp [jsEndsWith, isPrefixCh]
    have hl : decide (1 < (['*', '*'] ++ x ++ ['*', '*']).length) = true := by
      simp only [List.length_append, List.length_cons, List.length_nil,
        decide_eq_true_eq]
      omega
    unfold italicAction
    rw [if_pos (by rw [hs, he, hl]; rfl)]
    show (((['*', '*'] ++ x ++ ['*', '*']).drop 1).take
      ((['*', '*'] ++ x ++ ['*', '*']).length - 1 - 1)) = '*' :: x ++ ['*']
    have hlen : (['*', '*'] ++ x ++ ['*', '*']).length - 1 - 1
        = x.length + 1 + 1 := by
      simp only [List.length_append, List.length_cons, List.length_nil]
      omega
    rw [hlen]
    show (('*' :: (x ++ ['*', '*'])).take (x.length + 1 + 1)) = '*' :: x ++ ['*']
    rw [List.take_succ_cons, List.take_append]
    rfl

/-- Witness for C9 at `s` the selection `*a*` and `x` the selection `b`. -/
theorem italic_strip_branch_witness :
    italicAction ['*', 'a', '*'] = jsSlice ['*', 'a', '*'] 1 1 ∧
    italicAction (['*', '*'] ++ ['b'] ++ ['*', '*']) = '*' :: ['b'] ++ ['*'] :=
  italic_strip_branch ['*', 'a', '*'] ['b'] (by decide) (by decide) (by decide)

/-- C10 counterexample: applying the bold action twice to the one-character
selection `*` returns `*`, not the empty string: the wrap step produces five
asterisks, not three, and the strip step then recovers `*`. -/
theorem bold_double_star_counterexample :
    boldAction ['*'] = ['*', '*', '*', '*', '*'] ∧
    boldAction (boldAction ['*']) = ['*'] ∧
    boldAction (boldAction ['*']) ≠ [] := by
  decide

/-- C10 amended: the strip branch of the bold action indeed has no
minimum-length guard, and on a selection whose leading and trailing `**`
markers overlap a single application collapses the selection to the empty
string; the double application on `*` is unaffected and returns `*`. -/
theorem bold_overlap_collapse :
    boldAction ['*', '*'] = [] ∧ boldAction ['*', '*', '*'] = [] ∧
    boldAction (boldAction ['*']) = ['*'] := by
  decide

/-- The split of a text is never the empty list of parts. -/
theorem splitNl_ne_nil (s : List Char) : splitNl s ≠ [] := by
  cases s with
  | nil => simp [splitNl]
  | cons c cs =>
    unfold splitNl
    split
    · simp
    · split <;> simp

/-- No part produced by the split contains a newline. -/
theorem mem_splitNl_no_nl (s : List Char) : ∀ l ∈ splitNl s, '\n' ∉ l := by
  induction s with
  | nil =>
    intro l hl
    simp [splitNl] at hl
    simp [hl]
  | cons c cs ih =>
    intro l hl
    unfold splitNl at hl
    by_cases hc : (c == '\n') = true
    · rw [if_pos hc] at hl
      rcases List.mem_cons.mp hl with h | h
      · simp [h]
      · exact ih l h
    · rw [if_neg hc] at hl
      rcases hsp : splitNl cs with _ | ⟨l₀, ls⟩
      · exact absurd hsp (splitNl_ne_nil cs)
      · rw [hsp] at hl
        rcases List.mem_cons.mp hl with h | h
        · subst h
          intro hmem
          rcases List.mem_cons.mp hmem with h' | h'
          · simp [← h'] at hc
          · exact ih l₀ (by rw [hsp]; exact List.mem_cons_self _ _) h'
        · exact ih l (by rw [hsp]; exact List.mem_cons_of_mem _ h)

/-- Splitting a newline-free text yields that text as the only part. -/
theorem splitNl_of_no_nl (l : List Char) (h : '\n' ∉ l) : splitNl l = [l] := by
  induction l with
  | nil => rfl
  | cons c cs ih =>
    have hc : c ≠ '\n' := fun e => h (by simp [e])
    unfold splitNl
    rw [if_neg (by simp [hc])]
    rw [ih (fun hm => h (List.mem_cons_of_mem _ hm))]

/-- Unfolding equation of the split on a non-empty text. -/
theorem splitNl_cons (c : Char) (cs : List Char) :
    splitNl (c :: cs)
      = if c == '\n' then [] :: splitNl cs
        else
          match splitNl cs with
          | [] => [[c]]
          | l :: ls => (c :: l) :: ls := rfl

/-- Splitting past a newline that follows a newline-free segment. -/
theorem splitNl_append_nl (l t : List Char) (h : '\n' ∉ l) :
    splitNl (l ++ '\n' :: t) = l :: splitNl t := by
  induction l with
  | nil => simp [splitNl]
  | cons c cs ih =>
    have hc : c ≠ '\n' := fun e => h (by simp [e])
    have hrec := ih (fun hm => h (List.mem_cons_of_mem _ hm))
    rw [List.cons_append, splitNl_cons, if_neg (by simp [hc]), hrec]

/-- The split is a left inverse of the join on non-empty lists of
newline-free parts. -/
theorem splitNl_joinNl (ls : List (List Char)) (hne : ls ≠ [])
    (h : ∀ l ∈ ls, '\n' ∉ l) : splitNl (joinNl ls) = ls := by
  induction ls with
  | nil => exact absurd rfl hne
  | cons l ls ih =>
    cases ls with
    | nil => exact splitNl_of_no_nl l (h l (by simp))
    | cons l' ls' =>
      have hjoin : joinNl (l :: l' :: ls') = l ++ '\n' :: joinNl (l' :: ls') := rfl
      rw [hjoin, splitNl_append_nl l _ (h l (by simp))]
      rw [ih (by simp) (fun m hm => h m (List.mem_cons_of_mem _ hm))]

/-- Digit characters are not the newline. -/
theorem decDigit_ne_nl (d : Nat) : decDigit d ≠ '\n' := by
  unfold decDigit
  split <;> decide

/-- The fuelled decimal rendering never contains a newline. -/
theorem natToDecAux_no_nl (f n : Nat) : '\n' ∉ natToDecAux f n := by
  induction f generalizing n with
  | zero => simp [natToDecAux]
  | succ f ih =>
    unfold natToDecAux
    split
    · intro hmem
      simp at hmem
      exact decDigit_ne_nl n hmem.symm
    · intro hmem
      rcases List.mem_append.mp hmem with hm | hm
      · exact ih _ hm
      · simp at hm
        exact decDigit_ne_nl _ hm.symm

/-- The decimal rendering never contains a newline. -/
theorem natToDec_no_nl (n : Nat) : '\n' ∉ natToDec n := natToDecAux_no_nl _ _

/-- C6: on a non-empty selection, the blockquote, unordered-list,
ordered-list and task-list replacement texts have exactly one line per line
of the selection, in order, each equal to the corresponding input line with
the marker of the action prepended (and for the ordered list the one-based
line number). -/
theorem multi_line_markers (s : List Char) (h : s ≠ []) :
    splitNl (blockquoteText s) = (splitNl s).map (fun line => '>' :: ' ' :: line) ∧
    splitNl (unorderedListText s) = (splitNl s).map (fun line => '-' :: ' ' :: line) ∧
    splitNl (orderedListText s)
      = (splitNl s).enum.map (fun p => natToDec (p.1 + 1) ++ '.' :: ' ' :: p.2) ∧
    splitNl (taskListText s)
      = (splitNl s).map (fun line => '-' :: ' ' :: '[' :: ' ' :: ']' :: ' ' :: line) := by
  have hnn := mem_splitNl_no_nl s
  refine ⟨?_, ?_, ?_, ?_⟩
  · rw [blockquoteText, if_pos h]
    refine splitNl_joinNl _ (by simp [splitNl_ne_nil s]) ?_
    intro m hm
    rcases List.mem_map.mp hm with ⟨a, ha, rfl⟩
    simp only [List.mem_cons]
    rintro (h' | h' | h')
    · simp at h'
    · simp at h'
    · exact hnn a ha h'
  · rw [unorderedListText, if_pos h]
    refine splitNl_joinNl _ (by simp [splitNl_ne_nil s]) ?_
    intro m hm
    rcases List.mem_map.mp hm with ⟨a, ha, rfl⟩
    simp only [List.mem_cons]
    rintro (h' | h' | h')
    · simp at h'
    · simp at h'
    · exact hnn a ha h'
  · rw [orderedListText, if_pos h]
    refine splitNl_joinNl _ ?_ ?_
    · simp [List.enum_eq_nil, splitNl_ne_nil s]
    · intro m hm
      rcases List.mem_map.mp hm with ⟨p, hp, rfl⟩
      intro hmem
      rcases List.mem_append.mp hmem with hm' | hm'
      · exact natToDec_no_nl _ hm'
      · rcases List.mem_cons.mp hm' with h' | h'
        · simp at h'
        · rcases List.mem_cons.mp h' with h'' | h''
          · simp at h''
          · have hsnd : p.2 ∈ splitNl s :=
              List.mem_iff_getElem?.mpr ⟨p.1, List.mem_enum_iff_getElem?.mp hp⟩
            exact hnn p.2 hsnd h''
  · rw [taskListText, if_pos h]
    refine splitNl_joinNl _ (by simp [splitNl_ne_nil s]) ?_
    intro m hm
    rcases List.mem_map.mp hm with ⟨a, ha, rfl⟩
    simp only [List.mem_cons]
    rintro (h' | h' | h' | h' | h' | h' | h')
    · simp at h'
    · simp at h'
    · simp at h'
    · simp at h'
    · simp at h'
    · simp at h'
    · exact hnn a ha h'

/-- Witness for C6 at the two-line selection made of `a`, a newline, `b`. -/
theorem multi_line_markers_witness :
    splitNl (blockquoteText ['a', '\n', 'b'])
      = (splitNl ['a', '\n', 'b']).map (fun line => '>' :: ' ' :: line) ∧
    splitNl (unorderedListText ['a', '\n', 'b'])
      = (splitNl ['a', '\n', 'b']).map (fun line => '-' :: ' ' :: line) ∧
    splitNl (orderedListText ['a', '\n', 'b'])
      = (splitNl ['a', '\n', 'b']).enum.map
          (fun p => natToDec (p.1 + 1) ++ '.' :: ' ' :: p.2) ∧
    splitNl (taskListText ['a', '\n', 'b'])
      = (splitNl ['a', '\n', 'b']).map
          (fun line => '-' :: ' ' :: '[' :: ' ' :: ']' :: ' ' :: line) :=
  multi_line_markers ['a', '\n', 'b'] (by decide)

/-- C1 counterexample: a file of 5,000,001 bytes is strictly larger than
5,000,000 bytes, yet the change handler starts its upload (the network
request is issued) and neither alerts nor clears the input, because the
code compares against `5 * 1024000 = 5120000`. -/
theorem upload_size_5000001_uploads :
    upChange true true [⟨"a.png", 5000001⟩]
      = [UpEffect.startUpload ⟨"a.png", 5000001⟩] ∧
    UpEffect.startUpload ⟨"a.png", 5000001⟩ ∈ upChange true true [⟨"a.png", 5000001⟩] ∧
    UpEffect.alertMsg "File too large (max 5MB)" ∉ upChange true true [⟨"a.png", 5000001⟩] ∧
    UpEffect.clearInput ∉ upChange true true [⟨"a.png", 5000001⟩] := by
  decide

/-- Unfolding equation of the upload handler loop on a non-empty file
list. -/
theorem upChange_cons (ep sp : Bool) (f : UFile) (fs : List UFile) :
    upChange ep sp (f :: fs)
      = if f.size > 5 * 1024000 then
          UpEffect.alertMsg "File too large (max 5MB)" :: UpEffect.clearInput ::
            upChange ep sp fs
        else if ep && sp then UpEffect.startUpload f :: upChange ep sp fs
        else [] := rfl

/-- C1 amended: the size threshold is `5 * 1024000 = 5,120,000` bytes.  A
file strictly larger than that takes the size-exceeded path whenever it is
reached (alert then input cleared, then the loop continues), and no upload
is ever started for it in any run of the handler. -/
theorem upload_size_threshold (f : UFile) (hf : f.size > 5 * 1024000) :
    (∀ editorPresent selPresent fs,
        upChange editorPresent selPresent (f :: fs)
          = UpEffect.alertMsg "File too large (max 5MB)" :: UpEffect.clearInput ::
              upChange editorPresent selPresent fs) ∧
    (∀ editorPresent selPresent fs,
        UpEffect.startUpload f ∉ upChange editorPresent selPresent fs) := by
  constructor
  · intro ep sp fs
    rw [upChange_cons, if_pos hf]
  · intro ep sp fs
    induction fs with
    | nil => simp [upChange]
    | cons g gs ih =>
      rw [upChange_cons]
      by_cases hg : g.size > 5 * 1024000
      · rw [if_pos hg]
        simp only [List.mem_cons]
        rintro (h' | h' | h')
        · exact absurd h' (by simp)
        · exact absurd h' (by simp)
        · exact ih h'
      · rw [if_neg hg]
        by_cases hps : (ep && sp) = true
        · rw [if_pos hps]
          simp only [List.mem_cons]
          rintro (h' | h')
          · injection h' with hfg
            rw [hfg] at hf
            exact hg hf
          · exact ih h'
        · rw [if_neg hps]
          simp

/-- Witness for C1 amended at a 6,000,000-byte file, first in the list,
with editor and selection present. -/
theorem upload_size_threshold_witness :
    upChange true true [⟨"big.png", 6000000⟩]
      = UpEffect.alertMsg "File too large (max 5MB)" :: UpEffect.clearInput ::
          upChange true true [] ∧
    UpEffect.startUpload ⟨"big.png", 6000000⟩ ∉ upChange true true [] := by
  have h := upload_size_threshold ⟨"big.png", 6000000⟩ (by decide)
  exact ⟨h.1 true true [], h.2 true true []⟩

/-- C2 counterexample: the clear-format chain applied to the selection
given in the claim does not produce `a b c d`: no replacement pattern
recognizes the underscore italics, so `_b_` survives. -/
theorem clear_format_example_counterexample :
    clearFormat ("**a** _b_ `c` [d](e)").data ≠ ("a b c d").data := by
  decide

/-- C2 amended: the clear-format action on the selection of the claim
produces `a _b_ c d`: the bold, inline-code and link markers are stripped,
while the underscore italics are not a recognized pattern and remain. -/
theorem clear_format_example :
    clearFormat ("**a** _b_ `c` [d](e)").data = ("a _b_ c d").data := by
  decide

/-- C4: when the upload request fails (rejected promise, or a response with
an error and no data), the upload interaction leaves the document text
unchanged on every path, because only the success callback edits. -/
theorem upload_failure_doc_unchanged (o : UploadOutcome) (hfail : uploadFailed o)
    (doc : List Char) (start len : Nat) (name : List Char) :
    uploadInteraction doc start len name o = doc := by
  cases o with
  | rejected => rfl
  | resolved r =>
    have hdata : r.data = none := hfail.2
    simp [uploadInteraction, uploadImageRun, hdata]

/-- Witness for C4 at a rejected upload over the document `hi`. -/
theorem upload_failure_doc_unchanged_witness :
    uploadInteraction ['h', 'i'] 0 0 ['f'] UploadOutcome.rejected = ['h', 'i'] :=
  upload_failure_doc_unchanged UploadOutcome.rejected trivial ['h', 'i'] 0 0 ['f']

/-- C7: composition start raises the composing flag; while it is raised, a
content-change event leaves the bridge state (in particular the parent
content) untouched; composition end and blur each commit the editor text to
the parent, blur regardless of the composition flag. -/
theorem composition_bridge (st : BridgeState) (v : List Char) :
    (bridgeStep st BridgeEvent.compositionStart).composing = true ∧
    (st.composing = true → bridgeStep st (BridgeEvent.contentChange v) = st) ∧
    (bridgeStep st (BridgeEvent.compositionEnd v)).parentContent = v ∧
    (bridgeStep st (BridgeEvent.compositionEnd v)).composing = false ∧
    (bridgeStep st (BridgeEvent.blur v)).parentContent = v := by
  refine ⟨rfl, fun h => ?_, rfl, rfl, rfl⟩
  simp [bridgeStep, h]

/-- Witness for C7 at a composing state with content `a` and editor text
`b`. -/
theorem composition_bridge_witness :
    (bridgeStep ⟨true, ['a']⟩ BridgeEvent.compositionStart).composing = true ∧
    bridgeStep ⟨true, ['a']⟩ (BridgeEvent.contentChange ['b']) = ⟨true, ['a']⟩ ∧
    (bridgeStep ⟨true, ['a']⟩ (BridgeEvent.compositionEnd ['b'])).parentContent = ['b'] ∧
    (bridgeStep ⟨true, ['a']⟩ (BridgeEvent.compositionEnd ['b'])).composing = false ∧
    (bridgeStep ⟨true, ['a']⟩ (BridgeEvent.blur ['b'])).parentContent = ['b'] := by
  have h := composition_bridge ⟨true, ['a']⟩ ['b']
  exact ⟨h.1, h.2.1 rfl, h.2.2.1, h.2.2.2.1, h.2.2.2.2⟩

/-- C8: for every action identifier, a missing editor, a missing selection
or a missing model makes the dispatcher return before the switch, with no
edit and no other effect. -/
theorem missing_refs_noop (tr : String → List Char) (actionType : String)
    (selOpt : Option Sel) (modelOpt : Option TextModel) (sel : Sel) :
    handleMarkdownAction tr false selOpt modelOpt actionType = [] ∧
    handleMarkdownAction tr true none modelOpt actionType = [] ∧
    handleMarkdownAction tr true (some sel) none actionType = [] :=
  ⟨rfl, rfl, rfl⟩
